import Mathlib

/-!
Shallow embedding of `src/L3_Utils/sampler.hpp` (`Sampler<TYPE>`), a
fixed-capacity circular sample buffer with running statistics, instantiated
at `TYPE = Int` (a numeric type with C-style truncating division `Int.tdiv`
and truncating remainder `Int.tmod`).

Modelling conventions:
- the four data members of the C++ class become the four fields of the
  `Sampler` structure; the raw `TYPE*` array becomes a `List Int` whose
  length plays the role of the allocated extent;
- every unchecked array access of the C++ code is modelled by an
  `Option`-valued read (`none` = out-of-bounds access, undefined behavior),
  and the division in `getAverage` yields `none` on a zero divisor
  (division by zero, undefined behavior);
- `for (i = 0; i < n; i++)` accumulation loops over `mSamples[i]` are
  modelled as folds over `mSamples.take n`, guarded by the bounds condition
  `n ≤ mSamples.length` under which every access of the loop is in bounds.
-/

/-- One `Sampler<int>` object: the four data members of the C++ class.
`mSamples.length` is the allocated extent of the `TYPE*` array. -/
structure Sampler where
  mSampleArraySize : Nat
  mSampleIndex : Nat
  mAllSamplesReady : Bool
  mSamples : List Int
  deriving DecidableEq

/-- Read `samples[i]` for a C `int` index `i`: `none` when the access is out
of bounds (negative index or index past the allocated extent). -/
def readAt (samples : List Int) (i : Int) : Option Int :=
  if 0 ≤ i then samples[i.toNat]? else none

namespace Sampler

/-- The constructor `Sampler(int numSamples)`: allocates `new TYPE[numSamples]`
(which fails for a negative extent) and zero-fills every slot;
`mSampleIndex = 0`, `mAllSamplesReady = false`. -/
def init (numSamples : Int) : Option Sampler :=
  if numSamples < 0 then none
  else some { mSampleArraySize := numSamples.toNat
            , mSampleIndex := 0
            , mAllSamplesReady := false
            , mSamples := List.replicate numSamples.toNat 0 }

/-- The state `init c` produces for a nonnegative capacity `c`. -/
def fresh (c : Nat) : Sampler :=
  { mSampleArraySize := c
  , mSampleIndex := 0
  , mAllSamplesReady := false
  , mSamples := List.replicate c 0 }

/-- `storeSample`: writes `mSamples[mSampleIndex] = sample` (out of bounds is
undefined behavior, hence `none`), then `if (++mSampleIndex >= mSampleArraySize)
{ mSampleIndex = 0; mAllSamplesReady = true; }`. -/
def storeSample (st : Sampler) (sample : Int) : Option Sampler :=
  if st.mSampleIndex < st.mSamples.length then
    let samples := st.mSamples.set st.mSampleIndex sample
    if st.mSampleIndex + 1 ≥ st.mSampleArraySize then
      some { st with mSamples := samples, mSampleIndex := 0, mAllSamplesReady := true }
    else
      some { st with mSamples := samples, mSampleIndex := st.mSampleIndex + 1 }
  else none

/-- `getSampleCount`: `mAllSamplesReady ? mSampleArraySize : mSampleIndex`. -/
def getSampleCount (st : Sampler) : Nat :=
  if st.mAllSamplesReady then st.mSampleArraySize else st.mSampleIndex

/-- `getMaxSampleCount`: returns `mSampleArraySize`. -/
def getMaxSampleCount (st : Sampler) : Nat :=
  st.mSampleArraySize

/-- `allSamplesReady`: returns `mAllSamplesReady`. -/
def allSamplesReady (st : Sampler) : Bool :=
  st.mAllSamplesReady

/-- `getAverage`: sums `mSamples[0 .. numSamples-1]` where
`numSamples = getSampleCount()` (any out-of-bounds read is undefined
behavior, hence `none`) and returns `sum / numSamples` with C truncating
division; a zero sample count is a division by zero, undefined behavior,
hence `none`. -/
def getAverage (st : Sampler) : Option Int :=
  let numSamples := st.getSampleCount
  if numSamples ≤ st.mSamples.length then
    if numSamples = 0 then none
    else some (Int.tdiv ((st.mSamples.take numSamples).foldl (· + ·) 0) numSamples)
  else none

/-- `getLatest`: reads `mSamples[idx]` with
`idx = (0 == mSampleIndex) ? (mSampleArraySize - 1) : (mSampleIndex - 1)`,
computed in `int` arithmetic (so `idx = -1` when the buffer has capacity 0,
an out-of-bounds read). -/
def getLatest (st : Sampler) : Option Int :=
  let idx : Int :=
    if 0 = st.mSampleIndex then (st.mSampleArraySize : Int) - 1
    else (st.mSampleIndex : Int) - 1
  readAt st.mSamples idx

/-- Loop body of `getHighest`: `if (highest < mSamples[i]) highest = mSamples[i]`. -/
def hiStep (highest x : Int) : Int :=
  if highest < x then x else highest

/-- Loop body of `getLowest`: `if (lowest > mSamples[i]) lowest = mSamples[i]`. -/
def loStep (lowest x : Int) : Int :=
  if lowest > x then x else lowest

/-- `getHighest`: starts from `highest = mSamples[0]` (an unchecked read) and
scans `mSamples[0 .. numSamples-1]` in ascending index order, replacing
`highest` only on strict `highest < mSamples[i]`. -/
def getHighest (st : Sampler) : Option Int :=
  let numSamples := st.getSampleCount
  match st.mSamples[0]? with
  | none => none
  | some h =>
    if numSamples ≤ st.mSamples.length then
      some ((st.mSamples.take numSamples).foldl hiStep h)
    else none

/-- `getLowest`: starts from `lowest = mSamples[0]` (an unchecked read) and
scans `mSamples[0 .. numSamples-1]` in ascending index order, replacing
`lowest` only on strict `lowest > mSamples[i]`. -/
def getLowest (st : Sampler) : Option Int :=
  let numSamples := st.getSampleCount
  match st.mSamples[0]? with
  | none => none
  | some l =>
    if numSamples ≤ st.mSamples.length then
      some ((st.mSamples.take numSamples).foldl loStep l)
    else none

/-- `getSampleNum(int idx)`: reads `mSamples[idx % mSampleArraySize]` where
`%` is the C truncating remainder (negative for a negative `idx`, in which
case the access is out of bounds). -/
def getSampleNum (st : Sampler) (idx : Int) : Option Int :=
  readAt st.mSamples (Int.tmod idx st.mSampleArraySize)

/-- `clear`: sets `mAllSamplesReady = false` and `mSampleIndex = 0`, leaving
`mSampleArraySize` and the contents of `mSamples` untouched. -/
def clear (st : Sampler) : Sampler :=
  { st with mAllSamplesReady := false, mSampleIndex := 0 }

/-- Perform a sequence of `storeSample` calls. -/
def runInserts (st : Sampler) : List Int → Option Sampler
  | [] => some st
  | x :: xs =>
    match st.storeSample x with
    | some st2 => runInserts st2 xs
    | none => none

/-- Class invariant of every object produced by the constructor with a
positive capacity: the array extent equals `mSampleArraySize` and the write
index is inside the array. -/
abbrev WF (st : Sampler) : Prop :=
  st.mSamples.length = st.mSampleArraySize ∧ st.mSampleIndex < st.mSampleArraySize

end Sampler

/-! ## Helper lemmas -/

/-- The constructor at a nonnegative requested capacity `c` succeeds and
produces the zero-filled state `fresh c`. -/
theorem Sampler.init_ofNat (c : Nat) : Sampler.init c = some (Sampler.fresh c) := by
  simp [Sampler.init, Sampler.fresh]

/-- A freshly constructed buffer of positive capacity satisfies the class
invariant. -/
theorem Sampler.fresh_wf (c : Nat) (hc : 1  ≤ c) : (Sampler.fresh c).WF := by
  constructor
  · simp [Sampler.fresh]
  · simpa [Sampler.fresh] using hc

/-- Effect of one `storeSample` call on a well-formed state: it succeeds,
preserves well-formedness, capacity and array extent, advances the write
index modulo the capacity, and sets the ready flag exactly when the
incremented index reaches the capacity. -/
theorem Sampler.storeSample_spec (st : Sampler) (x : Int) (h : st.WF) :
    ∃ st2, st.storeSample x = some st2 ∧ st2.WF ∧
      st2.mSampleArraySize = st.mSampleArraySize ∧
      st2.mSamples.length = st.mSamples.length ∧
      st2.mSampleIndex = (st.mSampleIndex + 1) % st.mSampleArraySize ∧
      (st2.mAllSamplesReady = true ↔
        (st.mAllSamplesReady = true ∨ st.mSampleArraySize ≤ st.mSampleIndex + 1)) := by
  obtain ⟨hlen, hidx⟩ := h
  have hin : st.mSampleIndex < st.mSamples.length := hlen ▸ hidx
  by_cases hge : st.mSampleArraySize ≤ st.mSampleIndex + 1
  · have heq : st.mSampleIndex + 1 = st.mSampleArraySize := by omega
    refine ⟨⟨st.mSampleArraySize, 0, true, st.mSamples.set st.mSampleIndex x⟩,
      ?_, ⟨?_, ?_⟩, rfl, ?_, ?_, ?_⟩
    · simp [Sampler.storeSample, hin, hge]
    · simp [hlen]
    · show 0 < st.mSampleArraySize
      omega
    · simp
    · rw [← heq, Nat.mod_self]
    · simp [hge]
  · have hlt : st.mSampleIndex + 1 < st.mSampleArraySize := by omega
    refine ⟨⟨st.mSampleArraySize, st.mSampleIndex + 1, st.mAllSamplesReady,
        st.mSamples.set st.mSampleIndex x⟩, ?_, ⟨?_, ?_⟩, rfl, ?_, ?_, ?_⟩
    · simp [Sampler.storeSample, hin, hge]
    · simp [hlen]
    · exact hlt
    · simp
    · exact (Nat.mod_eq_of_lt hlt).symm
    · simp [hge]

/-- Effect of a sequence of `storeSample` calls on a well-formed state: all
succeed, capacity and extent are preserved, the write index advances by the
number of insertions modulo the capacity, and the ready flag is set exactly
when the cumulative raw position reaches the capacity. -/
theorem Sampler.runInserts_spec (xs : List Int) : ∀ st : Sampler, st.WF →
    ∃ st2, st.runInserts xs = some st2 ∧ st2.WF ∧
      st2.mSampleArraySize = st.mSampleArraySize ∧
      st2.mSamples.length = st.mSamples.length ∧
      st2.mSampleIndex = (st.mSampleIndex + xs.length) % st.mSampleArraySize ∧
      (st2.mAllSamplesReady = true ↔
        (st.mAllSamplesReady = true ∨
          st.mSampleArraySize ≤ st.mSampleIndex + xs.length)) := by
  induction xs with
  | nil =>
    intro st h
    refine ⟨st, rfl, h, rfl, rfl, ?_, ?_⟩
    · simp [Nat.mod_eq_of_lt h.2]
    · have hi := h.2
      cases hb : st.mAllSamplesReady
      · simp
        omega
      · simp
  | cons x xs ih =>
    intro st h
    obtain ⟨stm, hrun, hwf, hsz, hlen, hidx, hready⟩ := st.storeSample_spec x h
    obtain ⟨st2, hrun2, hwf2, hsz2, hlen2, hidx2, hready2⟩ := ih stm hwf
    refine ⟨st2, ?_, hwf2, hsz2.trans hsz, hlen2.trans hlen, ?_, ?_⟩
    · rw [Sampler.runInserts, hrun]
      exact hrun2
    · rw [hidx2, hsz, hidx, Nat.mod_add_mod, List.length_cons]
      congr 1
      omega
    · rw [hready2, hready, hsz, hidx, List.length_cons]
      by_cases hc1 : st.mSampleArraySize ≤ st.mSampleIndex + 1
      · have h2 : st.mSampleArraySize ≤ st.mSampleIndex + (xs.length + 1) := by omega
        simp [hc1, h2]
      · have hlt : st.mSampleIndex + 1 < st.mSampleArraySize := by omega
        rw [Nat.mod_eq_of_lt hlt]
        have heq : st.mSampleIndex + 1 + xs.length =
            st.mSampleIndex + (xs.length + 1) := by omega
        rw [heq]
        simp [hc1]

/-- The running-maximum fold of `getHighest` returns its seed or an element of
the scanned list, never drops below the seed, and dominates every element. -/
theorem foldl_hiStep_spec (l : List Int) : ∀ a : Int,
    (l.foldl Sampler.hiStep a = a ∨ l.foldl Sampler.hiStep a ∈ l) ∧
    a ≤ l.foldl Sampler.hiStep a ∧
    ∀ x ∈ l, x ≤ l.foldl Sampler.hiStep a := by
  induction l with
  | nil =>
    intro a
    simp
  | cons y ys ih =>
    intro a
    obtain ⟨hmem, hle, hall⟩ := ih (Sampler.hiStep a y)
    have hay : a ≤ Sampler.hiStep a y := by
      unfold Sampler.hiStep
      split <;> omega
    have hyy : y ≤ Sampler.hiStep a y := by
      unfold Sampler.hiStep
      split <;> omega
    rw [List.foldl_cons]
    refine ⟨?_, le_trans hay hle, ?_⟩
    · rcases hmem with h1 | h1
      · rw [h1]
        by_cases hc : a < y
        · exact Or.inr (by simp [Sampler.hiStep, hc])
        · exact Or.inl (by simp [Sampler.hiStep, hc])
      · exact Or.inr (List.mem_cons_of_mem _ h1)
    · intro x hx
      rcases List.mem_cons.mp hx with rfl | hx2
      · exact le_trans hyy hle
      · exact hall x hx2

/-- The running-minimum fold of `getLowest` returns its seed or an element of
the scanned list, never rises above the seed, and is below every element. -/
theorem foldl_loStep_spec (l : List Int) : ∀ a : Int,
    (l.foldl Sampler.loStep a = a ∨ l.foldl Sampler.loStep a ∈ l) ∧
    l.foldl Sampler.loStep a ≤ a ∧
    ∀ x ∈ l, l.foldl Sampler.loStep a ≤ x := by
  induction l with
  | nil =>
    intro a
    simp
  | cons y ys ih =>
    intro a
    obtain ⟨hmem, hle, hall⟩ := ih (Sampler.loStep a y)
    have hay : Sampler.loStep a y ≤ a := by
      unfold Sampler.loStep
      split <;> omega
    have hyy : Sampler.loStep a y ≤ y := by
      unfold Sampler.loStep
      split <;> omega
    rw [List.foldl_cons]
    refine ⟨?_, le_trans hle hay, ?_⟩
    · rcases hmem with h1 | h1
      · rw [h1]
        by_cases hc : a > y
        · exact Or.inr (by simp [Sampler.loStep, hc])
        · exact Or.inl (by simp [Sampler.loStep, hc])
      · exact Or.inr (List.mem_cons_of_mem _ h1)
    · intro x hx
      rcases List.mem_cons.mp hx with rfl | hx2
      · exact le_trans hle hyy
      · exact hall x hx2

/-! ## Claim theorems -/

/-- Claim C1: for every well-formed buffer state with a positive sample count,
`getAverage` returns the sum of the physical slots
`mSamples[0 .. getSampleCount-1]` divided by `getSampleCount` using the
truncating division of the element type — iteration over the raw physical
layout, not a chronological window. -/
theorem getAverage_physical_window (st : Sampler) (h : st.WF)
    (hn : 0 < st.getSampleCount) :
    st.getAverage = some (Int.tdiv
      ((st.mSamples.take st.getSampleCount).foldl (· + ·) 0)
      st.getSampleCount) := by
  obtain ⟨hlen, hidx⟩ := h
  have hle : st.getSampleCount ≤ st.mSamples.length := by
    unfold Sampler.getSampleCount
    split <;> omega
  have hne : ¬ st.getSampleCount = 0 := by omega
  simp [Sampler.getAverage, hle, hne]

/-- Witness for C1: capacity 2, inserting 10, 20, 30 leaves physical slots
[30, 20] (slot 0 overwritten) and the average over them is 25. -/
theorem getAverage_physical_window_witness :
    (Sampler.fresh 2).runInserts [10, 20, 30] = some ⟨2, 1, true, [30, 20]⟩ ∧
    Sampler.WF ⟨2, 1, true, [30, 20]⟩ ∧
    0 < Sampler.getSampleCount ⟨2, 1, true, [30, 20]⟩ ∧
    Sampler.getAverage ⟨2, 1, true, [30, 20]⟩ = some 25 :=
  ⟨by decide, by decide, by decide,
    by rw [getAverage_physical_window ⟨2, 1, true, [30, 20]⟩ (by decide) (by decide)]
       decide⟩

/-- Claim C2 (refuted by the code): on a buffer with zero stored samples —
freshly constructed with capacity 2, and again after two insertions followed
by `clear` — `getHighest` and `getLowest` silently return the physical slot
`mSamples[0]` (the initial zero, resp. stale pre-reset data) and `getAverage`
divides by zero (undefined behavior, modelled as `none`); no `EmptyBuffer`
error is surfaced anywhere. -/
theorem empty_buffer_stats_unchecked :
    (Sampler.getSampleCount (Sampler.fresh 2) = 0 ∧
      Sampler.getHighest (Sampler.fresh 2) = some 0 ∧
      Sampler.getLowest (Sampler.fresh 2) = some 0 ∧
      Sampler.getAverage (Sampler.fresh 2) = none) ∧
    ((Sampler.fresh 2).runInserts [4, 6] = some ⟨2, 0, true, [4, 6]⟩ ∧
      Sampler.getSampleCount (Sampler.clear ⟨2, 0, true, [4, 6]⟩) = 0 ∧
      Sampler.getHighest (Sampler.clear ⟨2, 0, true, [4, 6]⟩) = some 4 ∧
      Sampler.getAverage (Sampler.clear ⟨2, 0, true, [4, 6]⟩) = none) := by
  decide

/-- Claim C3 (refuted by the code): constructing with requested capacity 0
succeeds silently — no error is raised and nothing is clamped to 1 — and
yields a buffer whose capacity is 0, violating the intended invariant
`capacity >= 1`. -/
theorem init_zero_capacity_silent :
    Sampler.init 0 = some (Sampler.fresh 0) ∧
    Sampler.getMaxSampleCount (Sampler.fresh 0) = 0 := by
  decide

/-- Claim C4: for every capacity c ≥ 1, after exactly c insertions
`allSamplesReady` is true, it remains true after every further sequence of
insertions, and `clear` resets it to false. -/
theorem isFull_after_capacity_inserts (c : Nat) (xs ys : List Int)
    (hc : 1 ≤ c) (hlen : xs.length = c) :
    ∃ st st2, (Sampler.fresh c).runInserts xs = some st ∧
      st.allSamplesReady = true ∧
      st.runInserts ys = some st2 ∧
      st2.allSamplesReady = true ∧
      st2.clear.allSamplesReady = false := by
  obtain ⟨st, hrun, hwf, hsz, hl, hidx, hready⟩ :=
    Sampler.runInserts_spec xs (Sampler.fresh c) (Sampler.fresh_wf c hc)
  have hst : st.mAllSamplesReady = true := by
    apply hready.mpr
    right
    show c ≤ 0 + xs.length
    omega
  obtain ⟨st2, hrun2, hwf2, hsz2, hl2, hidx2, hready2⟩ :=
    Sampler.runInserts_spec ys st hwf
  exact ⟨st, st2, hrun, hst, hrun2, hready2.mpr (Or.inl hst), rfl⟩

/-- Witness for C4: capacity 2, full after inserting 10 and 20, still full
after inserting 30, and not full after `clear`. -/
theorem isFull_after_capacity_inserts_witness :
    1 ≤ 2 ∧ ([10, 20] : List Int).length = 2 ∧
    (∃ st st2, (Sampler.fresh 2).runInserts [10, 20] = some st ∧
      st.allSamplesReady = true ∧
      st.runInserts [30] = some st2 ∧
      st2.allSamplesReady = true ∧
      st2.clear.allSamplesReady = false) :=
  ⟨by decide, by decide,
    isFull_after_capacity_inserts 2 [10, 20] [30] (by decide) (by decide)⟩

/-- Claim C5: for every capacity c ≥ 1 and every sequence of fewer than c
insertions into a fresh buffer, `getSampleCount` equals the exact number of
insertions performed and `allSamplesReady` is false. -/
theorem sampleCount_tracks_inserts (c : Nat) (xs : List Int)
    (hc : 1 ≤ c) (hlen : xs.length < c) :
    ∃ st, (Sampler.fresh c).runInserts xs = some st ∧
      st.getSampleCount = xs.length ∧ st.allSamplesReady = false := by
  obtain ⟨st, hrun, hwf, hsz, hl, hidx, hready⟩ :=
    Sampler.runInserts_spec xs (Sampler.fresh c) (Sampler.fresh_wf c hc)
  have hnotready : st.mAllSamplesReady = false := by
    cases hb : st.mAllSamplesReady
    · rfl
    · exfalso
      rcases hready.mp hb with h1 | h2
      · simp [Sampler.fresh] at h1
      · simp [Sampler.fresh] at h2
        omega
  refine ⟨st, hrun, ?_, hnotready⟩
  unfold Sampler.getSampleCount
  rw [hnotready, hidx]
  simp [Sampler.fresh]
  exact Nat.mod_eq_of_lt hlen

/-- Witness for C5: capacity 3, a single insertion of 5 gives sample count 1
and a buffer that is not yet full. -/
theorem sampleCount_tracks_inserts_witness :
    1 ≤ 3 ∧ ([5] : List Int).length < 3 ∧
    (∃ st, (Sampler.fresh 3).runInserts [5] = some st ∧
      st.getSampleCount = ([5] : List Int).length ∧
      st.allSamplesReady = false) :=
  ⟨by decide, by decide,
    sampleCount_tracks_inserts 3 [5] (by decide) (by decide)⟩

/-- Claim C6: inserting `x` into any well-formed buffer succeeds and
`getLatest` then returns `x` — the value of the most recent insertion —
regardless of whether the buffer is full, via the slot
`mSamples[writeIndex - 1]` with wraparound to `mSamples[capacity - 1]`. -/
theorem getLatest_returns_last_inserted (st : Sampler) (x : Int) (h : st.WF) :
    ∃ st2, st.storeSample x = some st2 ∧ st2.getLatest = some x := by
  obtain ⟨hlen, hidx⟩ := h
  have hin : st.mSampleIndex < st.mSamples.length := hlen ▸ hidx
  by_cases hge : st.mSampleArraySize ≤ st.mSampleIndex + 1
  · refine ⟨⟨st.mSampleArraySize, 0, true, st.mSamples.set st.mSampleIndex x⟩, ?_, ?_⟩
    · simp [Sampler.storeSample, hin, hge]
    · have h0 : (0 : Int) ≤ (st.mSampleArraySize : Int) - 1 := by omega
      have htn : ((st.mSampleArraySize : Int) - 1).toNat = st.mSampleIndex := by omega
      simp [Sampler.getLatest, readAt, h0, htn, List.getElem?_set_self hin]
  · refine ⟨⟨st.mSampleArraySize, st.mSampleIndex + 1, st.mAllSamplesReady,
        st.mSamples.set st.mSampleIndex x⟩, ?_, ?_⟩
    · simp [Sampler.storeSample, hin, hge]
    · have hne : ¬ ((0 : Nat) = st.mSampleIndex + 1) := by omega
      have h0 : (0 : Int) ≤ ((st.mSampleIndex + 1 : Nat) : Int) - 1 := by omega
      have htn : (((st.mSampleIndex + 1 : Nat) : Int) - 1).toNat = st.mSampleIndex := by
        omega
      simp [Sampler.getLatest, readAt, hne, h0, htn, List.getElem?_set_self hin]

/-- Witness for C6: inserting 7 into a fresh buffer of capacity 2 makes
`getLatest` report 7. -/
theorem getLatest_returns_last_inserted_witness :
    Sampler.WF (Sampler.fresh 2) ∧
    (∃ st2, (Sampler.fresh 2).storeSample 7 = some st2 ∧
      st2.getLatest = some 7) :=
  ⟨by decide, getLatest_returns_last_inserted (Sampler.fresh 2) 7 (by decide)⟩

/-- Claim C7: `clear` resets the ready flag to false and the write index to 0
but leaves the stored samples and the capacity untouched; in particular
`getSampleNum` returns the same value at every index before and after
`clear`. -/
theorem clear_preserves_storage (st : Sampler) (idx : Int) :
    st.clear.getSampleNum idx = st.getSampleNum idx ∧
    st.clear.mSamples = st.mSamples ∧
    st.clear.getMaxSampleCount = st.getMaxSampleCount ∧
    st.clear.allSamplesReady = false ∧
    st.clear.mSampleIndex = 0 :=
  ⟨rfl, rfl, rfl, rfl, rfl⟩

/-- Counterexample to claim C8 as stated: at capacity 2, `getSampleNum (-1)`
computes the C truncating remainder `-1 % 2 = -1` and reads out of bounds
(undefined behavior), while `getSampleNum (-1 + 2)` is a valid in-bounds
read, so the two calls do not agree on every integer index. -/
theorem sampleNum_periodicity_fails_on_negative :
    ¬ (Sampler.getSampleNum (Sampler.fresh 2) (-1) =
       Sampler.getSampleNum (Sampler.fresh 2) (-1 + 2)) := by
  decide

/-- Claim C8 amended to nonnegative indices: for every buffer state and every
integer i ≥ 0, `getSampleNum i` equals `getSampleNum (i + capacity)` — the
index is reduced modulo the capacity, independent of `getSampleCount` and of
chronological ordering. -/
theorem sampleNum_periodic_nonneg (st : Sampler) (i : Int) (h : 0 ≤ i) :
    st.getSampleNum i = st.getSampleNum (i + st.mSampleArraySize) := by
  obtain ⟨n, rfl⟩ := Int.eq_ofNat_of_zero_le h
  unfold Sampler.getSampleNum
  have hcast : ((n : Int) + st.mSampleArraySize) =
      ((n + st.mSampleArraySize : Nat) : Int) := by omega
  rw [hcast]
  have htm : Int.tmod (n : Int) (st.mSampleArraySize : Int) =
      ((n % st.mSampleArraySize : Nat) : Int) := rfl
  have htm2 : Int.tmod ((n + st.mSampleArraySize : Nat) : Int)
      (st.mSampleArraySize : Int) =
      (((n + st.mSampleArraySize) % st.mSampleArraySize : Nat) : Int) := rfl
  rw [htm, htm2, Nat.add_mod_right]

/-- Witness for C8 (amended): at capacity 2, `getSampleNum 1` equals
`getSampleNum 3`. -/
theorem sampleNum_periodic_nonneg_witness :
    (0 : Int) ≤ 1 ∧
    Sampler.getSampleNum (Sampler.fresh 2) 1 =
      Sampler.getSampleNum (Sampler.fresh 2) (1 + (Sampler.fresh 2).mSampleArraySize) :=
  ⟨by decide, sampleNum_periodic_nonneg (Sampler.fresh 2) 1 (by decide)⟩

/-- Claim C9: for every well-formed buffer state with a positive sample count,
`getHighest` returns a value attained on the physical window
`mSamples[0 .. getSampleCount-1]` that dominates every slot of that window
(and dually `getLowest` returns an attained lower bound); both are pure
functions of the state, so repeated calls without intervening inserts return
identical results. -/
theorem getHighest_getLowest_extremal (st : Sampler) (h : st.WF)
    (hn : 0 < st.getSampleCount) :
    (∃ m, st.getHighest = some m ∧
      m ∈ st.mSamples.take st.getSampleCount ∧
      ∀ x ∈ st.mSamples.take st.getSampleCount, x ≤ m) ∧
    (∃ m, st.getLowest = some m ∧
      m ∈ st.mSamples.take st.getSampleCount ∧
      ∀ x ∈ st.mSamples.take st.getSampleCount, m ≤ x) := by
  obtain ⟨hlen, hidx⟩ := h
  have hle : st.getSampleCount ≤ st.mSamples.length := by
    unfold Sampler.getSampleCount
    split <;> omega
  have hpos : 0 < st.mSamples.length := by omega
  obtain ⟨a, ha⟩ : ∃ a, st.mSamples[0]? = some a :=
    ⟨_, List.getElem?_eq_getElem hpos⟩
  have htake : (st.mSamples.take st.getSampleCount)[0]? = some a := by
    rw [List.getElem?_take, if_pos hn]
    exact ha
  have hmemA : a ∈ st.mSamples.take st.getSampleCount := List.getElem?_mem htake
  obtain ⟨hmemH, hgeH, hallH⟩ :=
    foldl_hiStep_spec (st.mSamples.take st.getSampleCount) a
  obtain ⟨hmemL, hgeL, hallL⟩ :=
    foldl_loStep_spec (st.mSamples.take st.getSampleCount) a
  constructor
  · refine ⟨(st.mSamples.take st.getSampleCount).foldl Sampler.hiStep a,
      ?_, ?_, hallH⟩
    · simp [Sampler.getHighest, ha, hle]
    · rcases hmemH with h1 | h1
      · rw [h1]
        exact hmemA
      · exact h1
  · refine ⟨(st.mSamples.take st.getSampleCount).foldl Sampler.loStep a,
      ?_, ?_, hallL⟩
    · simp [Sampler.getLowest, ha, hle]
    · rcases hmemL with h1 | h1
      · rw [h1]
        exact hmemA
      · exact h1

/-- Witness for C9: on the full capacity-2 buffer holding [10, 20] the
extremal results are attained and bound the window. -/
theorem getHighest_getLowest_extremal_witness :
    Sampler.WF ⟨2, 0, true, [10, 20]⟩ ∧
    0 < Sampler.getSampleCount ⟨2, 0, true, [10, 20]⟩ ∧
    ((∃ m, Sampler.getHighest ⟨2, 0, true, [10, 20]⟩ = some m ∧
      m ∈ List.take (Sampler.getSampleCount ⟨2, 0, true, [10, 20]⟩) [10, 20] ∧
      ∀ x ∈ List.take (Sampler.getSampleCount ⟨2, 0, true, [10, 20]⟩) [10, 20],
        x ≤ m) ∧
    (∃ m, Sampler.getLowest ⟨2, 0, true, [10, 20]⟩ = some m ∧
      m ∈ List.take (Sampler.getSampleCount ⟨2, 0, true, [10, 20]⟩) [10, 20] ∧
      ∀ x ∈ List.take (Sampler.getSampleCount ⟨2, 0, true, [10, 20]⟩) [10, 20],
        m ≤ x)) :=
  ⟨by decide, by decide,
    getHighest_getLowest_extremal ⟨2, 0, true, [10, 20]⟩ (by decide) (by decide)⟩

/-- Claim C10: for every capacity c ≥ 1, construction succeeds, zero-fills
the storage, and before any insertion `getLatest` silently returns the zero
value read from slot c - 1 while the sample count is 0 — no error is
signalled on this empty-buffer call. -/
theorem getLatest_on_fresh_buffer (c : Nat) (hc : 1 ≤ c) :
    ∃ st, Sampler.init c = some st ∧
      st.mSamples = List.replicate c 0 ∧
      st.getLatest = some 0 ∧ st.getSampleCount = 0 := by
  refine ⟨Sampler.fresh c, Sampler.init_ofNat c, rfl, ?_, rfl⟩
  have h0 : (0 : Int) ≤ (c : Int) - 1 := by omega
  have htn : ((c : Int) - 1).toNat = c - 1 := by omega
  have hget : (List.replicate c (0 : Int))[c - 1]? = some 0 := by
    rw [List.getElem?_replicate, if_pos (by omega)]
  simp [Sampler.getLatest, Sampler.fresh, readAt, h0, htn, hget]

/-- Witness for C10: at capacity 3, the fresh buffer reports latest sample 0
with sample count 0. -/
theorem getLatest_on_fresh_buffer_witness :
    1 ≤ 3 ∧
    (∃ st, Sampler.init ((3 : Nat) : Int) = some st ∧
      st.mSamples = List.replicate 3 0 ∧
      st.getLatest = some 0 ∧ st.getSampleCount = 0) :=
  ⟨by decide, getLatest_on_fresh_buffer 3 (by decide)⟩
